import Mathlib

/-!
# Verification of the heading/slug/TOC core of `server.js`

This file is a shallow embedding of the heading-identifier core of the
repository's `server.js`:

* `renderer.heading` (server.js:13-24) — the per-heading render hook; its slug
  chain `String(text).toLowerCase().replace(/\W+/g, '-').replace(/^-|-$/g, '')`
  is embedded as `slugCharsRenderer` / `rendererSlug`.
* `generateTOC` (server.js:30-61) — line scan with `/^(#{1,6})\s+(.*)/`,
  per-line records, and the `<nav>`/`<div>`/`<a>` HTML accumulation; embedded
  as `parseHeadingLine`, `extract` and `generateTOC` below.
* the `app.get('/')` handler (server.js:64-92) — read-failure branch and
  TOC/fallback composition; embedded as `composeDocument` and
  `handleIndexRequest` (the external conversion engine is a parameter).

Strings are modelled as their underlying `List Char`.  JavaScript regex
character classes are modelled by code point (`Char.toNat`): `\w` is
`[A-Za-z0-9_]`, `\s` is the ECMAScript WhiteSpace/LineTerminator set, and `.`
matches everything except a line terminator.  `String.prototype.toLowerCase`
is modelled as ASCII case folding (`jsToLower`), which agrees with JavaScript
on all ASCII strings.
-/

/-- Code-point test for the JavaScript regex class `\w`, i.e. `[A-Za-z0-9_]`. -/
def jsIsWord (c : Char) : Bool :=
  (decide (97 ≤ c.toNat) && decide (c.toNat ≤ 122)) ||
  (decide (65 ≤ c.toNat) && decide (c.toNat ≤ 90)) ||
  (decide (48 ≤ c.toNat) && decide (c.toNat ≤ 57)) ||
  decide (c.toNat = 95)

/-- Code-point test for the JavaScript regex class `\s` (ECMAScript WhiteSpace
and LineTerminator code points, the set also used by `String.prototype.trim`). -/
def isJsSpace (c : Char) : Bool :=
  decide (c.toNat = 32) || decide (c.toNat = 9) || decide (c.toNat = 10) ||
  decide (c.toNat = 11) || decide (c.toNat = 12) || decide (c.toNat = 13) ||
  decide (c.toNat = 160) || decide (c.toNat = 5760) ||
  (decide (8192 ≤ c.toNat) && decide (c.toNat ≤ 8202)) ||
  decide (c.toNat = 8232) || decide (c.toNat = 8233) ||
  decide (c.toNat = 8239) || decide (c.toNat = 8287) ||
  decide (c.toNat = 12288) || decide (c.toNat = 65279)

/-- ECMAScript LineTerminator code points: LF, CR, LS, PS.  The regex `.`
(without the `s` flag) matches exactly the characters for which this is
`false`. -/
def isLineTerm (c : Char) : Bool :=
  decide (c.toNat = 10) || decide (c.toNat = 13) ||
  decide (c.toNat = 8232) || decide (c.toNat = 8233)

/-- ASCII case folding, the fragment of `String.prototype.toLowerCase`
relevant to `[A-Z]`; all other characters are returned unchanged. -/
def jsToLower (c : Char) : Char :=
  if 65 ≤ c.toNat ∧ c.toNat ≤ 90 then Char.ofNat (c.toNat + 32) else c

theorem char_toNat_ofNat_valid (n : Nat) (h : n < 55296) :
    (Char.ofNat n).toNat = n := by
  unfold Char.ofNat
  rw [dif_pos (Or.inl h)]
  rfl

theorem jsToLower_not_upper (c : Char) :
    ¬(65 ≤ (jsToLower c).toNat ∧ (jsToLower c).toNat ≤ 90) := by
  unfold jsToLower
  split
  · next h =>
    rw [char_toNat_ofNat_valid (c.toNat + 32) (by omega)]
    omega
  · next h => exact h

/-- One pass of `replace(/Π+/g, '-')` for a character class `p`: each maximal
run of characters satisfying `p` is replaced by a single `'-'`.  The `inRun`
flag records whether the previous character belonged to a run. -/
def collapseRuns (p : Char → Bool) : Bool → List Char → List Char
  | _, [] => []
  | inRun, c :: cs =>
    if p c then
      if inRun then collapseRuns p true cs
      else '-' :: collapseRuns p true cs
    else c :: collapseRuns p false cs

/-- The `^-` half of `replace(/^-|-$/g, '')`: remove one leading hyphen. -/
def dropLead (l : List Char) : List Char :=
  match l with
  | [] => []
  | c :: rest => if c = '-' then rest else c :: rest

/-- The `-$` half of `replace(/^-|-$/g, '')`: remove one trailing hyphen. -/
def dropTrail : List Char → List Char
  | [] => []
  | [c] => if c = '-' then [] else [c]
  | c :: c' :: rest => c :: dropTrail (c' :: rest)

/-- `String.prototype.trim`: drop leading and trailing JS whitespace. -/
def jsTrim (l : List Char) : List Char :=
  ((l.dropWhile isJsSpace).reverse.dropWhile isJsSpace).reverse

/-- String-level wrapper for `jsTrim`. -/
def jsTrimS (s : String) : String := ⟨jsTrim s.data⟩

/-- Slug chain of `renderer.heading` (server.js:18-19):
`base.toLowerCase().replace(/\W+/g, '-').replace(/^-|-$/g, '')`. -/
def slugCharsRenderer (l : List Char) : List Char :=
  dropTrail (dropLead (collapseRuns (fun c => !(jsIsWord c)) false (l.map jsToLower)))

/-- The slug computed by the rendering pass, `renderer.heading` (server.js:18-19). -/
def rendererSlug (text : String) : String := ⟨slugCharsRenderer text.data⟩

/-- Slug chain of the TOC pass inside `generateTOC` (server.js:40-43):
`title.toLowerCase().replace(/\W+/g, '-').replace(/^-|-$/g, '')`. -/
def slugCharsToc (l : List Char) : List Char :=
  dropTrail (dropLead (collapseRuns (fun c => !(jsIsWord c)) false (l.map jsToLower)))

/-- The slug computed by the TOC pass (server.js:40-43). -/
def tocSlug (title : String) : String := ⟨slugCharsToc title.data⟩

/-- Character class `[a-z0-9_]` named by the specification's slug algorithm
(§4.1): the characters a slug run-replacement keeps. -/
def specKeepChar (c : Char) : Bool :=
  (decide (97 ≤ c.toNat) && decide (c.toNat ≤ 122)) ||
  (decide (48 ≤ c.toNat) && decide (c.toNat ≤ 57)) ||
  decide (c.toNat = 95)

/-- The slug algorithm exactly as the specification words it (§4.1): convert
to lowercase; replace every maximal run of characters outside `[a-z0-9_]`
with a single hyphen; strip a leading or trailing hyphen if present.  Stated
from the spec's words, to be compared with `rendererSlug` / `tocSlug`. -/
def slugSpecAlg (s : String) : String :=
  ⟨dropTrail (dropLead (collapseRuns (fun c => !(specKeepChar c)) false (s.data.map jsToLower)))⟩

/-- Characters allowed in a URL-fragment-safe slug: `[a-z0-9_-]`. -/
def allowedChar (c : Char) : Bool :=
  (decide (97 ≤ c.toNat) && decide (c.toNat ≤ 122)) ||
  (decide (48 ≤ c.toNat) && decide (c.toNat ≤ 57)) ||
  decide (c.toNat = 95) || decide (c.toNat = 45)

/-- `true` iff the list contains no two adjacent hyphens. -/
def noDoubleHyphen : List Char → Bool
  | [] => true
  | [_] => true
  | a :: b :: rest => !(a = '-' && b = '-') && noDoubleHyphen (b :: rest)

/-- The last character of a list, if any. -/
def lastChar : List Char → Option Char
  | [] => none
  | [c] => some c
  | _ :: c :: rest => lastChar (c :: rest)

/-- One extracted heading: the `{ level, title, slug }` object pushed onto
`tocItems` in `generateTOC` (server.js:44). -/
structure HeadingRecord where
  level : Nat
  title : String
  slug : String
deriving DecidableEq, Repr

/-- Test for the literal `'#'` character. -/
def isHash (c : Char) : Bool := decide (c = '#')

/-- The complement of the line-terminator class: exactly what the regex `.`
matches. -/
def notTerm (c : Char) : Bool := !(isLineTerm c)

/-- Number of leading `'#'` characters of a line. -/
def hashCount (l : List Char) : Nat := (l.takeWhile isHash).length

/-- `line.match(/^(#{1,6})\s+(.*)/)` followed by the record construction of
`generateTOC` (server.js:33-44).  The regex matches iff the line starts with
1-6 `'#'` followed by at least one `\s` character (with 7+ leading hashes
every backtracking alternative fails, because the character after the chosen
hash group is another `'#'`).  `\s+` is greedy, and `(.*)` then captures the
maximal run of non-line-terminator characters; the code stores
`match[2].trim()` as the title and its slug (server.js:38-43). -/
def parseHeadingLine (l : List Char) : Option HeadingRecord :=
  let n := hashCount l
  if n = 0 then none
  else if 6 < n then none
  else
    let rest := l.dropWhile isHash
    match rest.head? with
    | none => none
    | some c =>
      if isJsSpace c then
        let captured := (rest.dropWhile isJsSpace).takeWhile notTerm
        let title := jsTrim captured
        some ⟨n, ⟨title⟩, ⟨slugCharsToc title⟩⟩
      else none

/-- `markdownData.split('\n')` (server.js:31). -/
def splitOnNl : List Char → List (List Char)
  | [] => [[]]
  | c :: cs =>
    if c = '\n' then [] :: splitOnNl cs
    else
      match splitOnNl cs with
      | [] => [[c]]
      | l :: ls => (c :: l) :: ls

/-- The `lines.forEach` loop of `generateTOC` (server.js:34-46): each line is
matched independently, and matching lines push one record, in order. -/
def recordsOfLines (ls : List (List Char)) : List HeadingRecord :=
  ls.filterMap parseHeadingLine

/-- The `tocItems` list computed by `generateTOC` for a source string
(server.js:31-46). -/
def extract (source : String) : List HeadingRecord :=
  recordsOfLines (splitOnNl source.data)

/-- The fixed `<nav>` opening emitted by `generateTOC` (server.js:51-52). -/
def navOpen : String :=
  "<nav id=\"toc\" style=\"margin-bottom:20px; padding:10px; border:1px solid #ddd; background:#f0f0f0; border-radius:4px;\"><h2>Table of Contents</h2>"

/-- One TOC entry, from the template literal in the `tocItems.forEach` loop
(server.js:53-57): indentation `(level - 1) * 20` px, link target `#slug`,
visible text `title` interpolated verbatim. -/
def tocEntry (r : HeadingRecord) : String :=
  "<div style=\"margin-left: " ++ toString ((r.level - 1) * 20) ++
    "px;\"><a href=\"#" ++ r.slug ++ "\">" ++ r.title ++ "</a></div>"

/-- `generateTOC` (server.js:30-61): empty string when no line matched,
otherwise the `<nav>` header with one appended entry per record. -/
def generateTOC (source : String) : String :=
  let items := extract source
  if items = [] then ""
  else (items.foldl (fun acc it => acc ++ tocEntry it) navOpen) ++ "</nav>"

/-- The fallback notice prepended when no TOC was generated (server.js:84-86). -/
def fallbackNotice : String :=
  "<p><em>Note: No headings found for navigation. Please ensure your Markdown file uses proper header syntax (e.g., \"## Creational Design Patterns\").</em></p>"

/-- The TOC/fallback composition in the request handler (server.js:82-89):
`if (!tocHtml)` prepend the notice, else prepend the TOC. -/
def composeDocument (source bodyHtml : String) : String :=
  let tocHtml := generateTOC source
  if tocHtml = "" then fallbackNotice ++ bodyHtml else tocHtml ++ bodyHtml

/-- The 500 body sent when the source file cannot be read (server.js:68-70). -/
def errorResponseBody : String :=
  "Internal Server Error: Could not read Markdown file."

/-- A terminated HTTP response: either a single error response or a page. -/
inductive HttpResponse where
  | error (status : Nat) (body : String)
  | page (body : String)
deriving DecidableEq

/-- The `app.get('/')` handler (server.js:64-92) at the granularity of one
completed `fs.readFile` callback.  `readResult` is `none` when the read
failed (the `err` branch, server.js:66-71) and `some markdownData` otherwise.
`engine` stands for the external conversion engine (`marked.parse` with the
custom renderer plus the `[object Object]` cleanup, server.js:78-80), an
external collaborator; the outer page shell (server.js:92 onward) is styling
only and is outside the verified core. -/
def handleIndexRequest (engine : String → String) (readResult : Option String) :
    HttpResponse :=
  match readResult with
  | none => .error 500 errorResponseBody
  | some markdownData => .page (composeDocument markdownData (engine markdownData))

/-- `renderer.heading` (server.js:13-24): emits the heading element with the
independently re-derived slug as its `id`. -/
def renderHeading (depth : Nat) (text : String) : String :=
  "<h" ++ toString depth ++ " id=\"" ++ rendererSlug text ++ "\">" ++ text ++
    "</h" ++ toString depth ++ ">"

/-- Modelled from the spec: the external conversion engine resolves inline
emphasis before invoking the heading hook, so `renderer.heading` receives the
heading's already inline-resolved plain text (spec §4.4; the engine itself,
`marked`, is an external collaborator and not part of this repository's
source).  Modelled as stripping the asterisk emphasis delimiters. -/
def resolveInline (s : String) : String := ⟨s.data.filter (fun c => c ≠ '*')⟩

/-- `true` iff the string contains none of the inline-markup delimiter
characters `'*'`, `'_'` (code point 95) and backquote (code point 96). -/
def noInlineMarkup (s : String) : Bool :=
  s.data.all (fun c => !(decide (c.toNat = 42) || decide (c.toNat = 95) || decide (c.toNat = 96)))


theorem collapseRuns_congr (p q : Char → Bool) :
    ∀ (l : List Char) (flag : Bool), (∀ c ∈ l, p c = q c) →
      collapseRuns p flag l = collapseRuns q flag l := by
  intro l
  induction l with
  | nil => intro flag _; rfl
  | cons c cs ih =>
    intro flag h
    have hc : p c = q c := h c (List.mem_cons_self c cs)
    have hcs : ∀ d ∈ cs, p d = q d := fun d hd => h d (List.mem_cons_of_mem c hd)
    cases hqc : q c with
    | true => cases flag <;> simp [collapseRuns, hc, hqc, ih true hcs]
    | false => simp [collapseRuns, hc, hqc, ih false hcs]

theorem jsIsWord_lowered (d : Char) :
    jsIsWord (jsToLower d) = specKeepChar (jsToLower d) := by
  have h := jsToLower_not_upper d
  have h1 : (decide (65 ≤ (jsToLower d).toNat) && decide ((jsToLower d).toNat ≤ 90)) = false := by
    by_cases h2 : 65 ≤ (jsToLower d).toNat
    · have h3 : ¬((jsToLower d).toNat ≤ 90) := fun h4 => h ⟨h2, h4⟩
      simp [h3]
    · simp [h2]
  unfold jsIsWord specKeepChar
  rw [h1]
  simp

theorem slug_code_eq_spec (s : String) : rendererSlug s = slugSpecAlg s := by
  unfold rendererSlug slugSpecAlg slugCharsRenderer
  have h := collapseRuns_congr (fun c => !(jsIsWord c)) (fun c => !(specKeepChar c))
    (s.data.map jsToLower) false ?side
  · rw [h]
  case side =>
    intro c hc
    rcases List.mem_map.1 hc with ⟨d, _, rfl⟩
    simp only [jsIsWord_lowered]

/-- C3: for every input string the slug computation lowercases, replaces each
maximal run of characters outside `[a-z0-9_]` by a single hyphen, and strips a
leading or trailing hyphen; with the three concrete examples of spec §8. -/
theorem slug_matches_spec_algorithm :
    (∀ s : String, rendererSlug s = slugSpecAlg s) ∧
    rendererSlug "Hello World" = "hello-world" ∧
    rendererSlug "  Multiple   Spaces!! " = "multiple-spaces" ∧
    rendererSlug "" = "" :=
  ⟨slug_code_eq_spec, by decide, by decide, by decide⟩

/-- C1: for a heading title without inline-markup characters, the inline
resolution performed by the external engine is the identity, so the slug the
TOC pass computes from the raw title equals the slug the rendering pass
computes from the inline-resolved text. -/
theorem toc_renderer_slug_agree (title : String)
    (h : noInlineMarkup title = true) :
    tocSlug title = rendererSlug (resolveInline title) := by
  have hres : resolveInline title = title := by
    unfold resolveInline
    have hfix : title.data.filter (fun c => c ≠ '*') = title.data := by
      rw [List.filter_eq_self]
      intro a ha
      have h2 := List.all_eq_true.1 h a ha
      simp only [Bool.not_eq_true', Bool.or_eq_false_iff, decide_eq_false_iff_not] at h2
      simp only [ne_eq, decide_eq_true_eq]
      intro heq
      exact h2.1.1 (by rw [heq]; rfl)
    rw [hfix]
  rw [hres]
  rfl

theorem toc_renderer_slug_agree_witness :
    tocSlug "Hello World" = rendererSlug (resolveInline "Hello World") :=
  toc_renderer_slug_agree "Hello World" (by decide)

/-- C2: a heading whose title contains inline markup (bold delimiters) gets
different slugs from the two passes: the TOC pass slugs the raw title, the
rendering pass slugs the inline-resolved text, and the resulting TOC href
fragment matches no emitted heading id. -/
theorem markup_slug_divergence :
    tocSlug "Design**Patterns**" = "design-patterns" ∧
    resolveInline "Design**Patterns**" = "DesignPatterns" ∧
    rendererSlug (resolveInline "Design**Patterns**") = "designpatterns" ∧
    tocSlug "Design**Patterns**" ≠ rendererSlug (resolveInline "Design**Patterns**") ∧
    extract "## Design**Patterns**" = [⟨2, "Design**Patterns**", "design-patterns"⟩] ∧
    tocEntry ⟨2, "Design**Patterns**", "design-patterns"⟩ =
      "<div style=\"margin-left: 20px;\"><a href=\"#design-patterns\">Design**Patterns**</a></div>" ∧
    renderHeading 2 (resolveInline "Design**Patterns**") =
      "<h2 id=\"designpatterns\">DesignPatterns</h2>" :=
  ⟨by decide, by decide, by decide, by decide, by decide, by decide, by decide⟩

/-- C8: when the source read fails, the handler answers with the single fixed
500 response; the result does not depend on the conversion engine (which
therefore never contributes output), and no document fragment appears. -/
theorem read_failure_terminal (engine : String → String) :
    handleIndexRequest engine none = HttpResponse.error 500 errorResponseBody ∧
    (∀ engine2 : String → String,
        handleIndexRequest engine none = handleIndexRequest engine2 none) :=
  ⟨rfl, fun _ => rfl⟩

theorem takeWhile_hash_run (n : Nat) (rest : List Char)
    (h : rest.takeWhile isHash = []) :
    (List.replicate n '#' ++ rest).takeWhile isHash = List.replicate n '#' := by
  induction n with
  | zero => simpa using h
  | succ k ih =>
    rw [List.replicate_succ, List.cons_append, List.takeWhile_cons]
    have hh : isHash '#' = true := rfl
    rw [hh]
    simp [ih]

theorem dropWhile_hash_run (n : Nat) (rest : List Char)
    (h : rest.takeWhile isHash = []) :
    (List.replicate n '#' ++ rest).dropWhile isHash = rest := by
  induction n with
  | zero =>
    cases rest with
    | nil => rfl
    | cons a as =>
      rw [List.takeWhile_cons] at h
      cases hb : isHash a with
      | true => rw [hb] at h; simp at h
      | false => simp [List.dropWhile_cons, hb]
  | succ k ih =>
    rw [List.replicate_succ, List.cons_append, List.dropWhile_cons]
    have hh : isHash '#' = true := rfl
    rw [hh]
    simpa using ih

theorem hashCount_run (n : Nat) (rest : List Char)
    (h : rest.takeWhile isHash = []) :
    hashCount (List.replicate n '#' ++ rest) = n := by
  unfold hashCount
  rw [takeWhile_hash_run n rest h, List.length_replicate]

theorem takeWhile_hash_nil_of_head (rest : List Char) (c : Char)
    (h1 : rest.head? = some c) (h2 : isHash c = false) :
    rest.takeWhile isHash = [] := by
  cases rest with
  | nil => rfl
  | cons a as =>
    have : a = c := by simpa using h1
    subst this
    rw [List.takeWhile_cons, h2]
    simp

theorem parseHeadingLine_match (n : Nat) (rest : List Char) (c : Char)
    (h1 : 1 ≤ n) (h2 : n ≤ 6) (h3 : rest.head? = some c) (h4 : isJsSpace c = true) :
    parseHeadingLine (List.replicate n '#' ++ rest) =
      some ⟨n, ⟨jsTrim ((rest.dropWhile isJsSpace).takeWhile notTerm)⟩,
             ⟨slugCharsToc (jsTrim ((rest.dropWhile isJsSpace).takeWhile notTerm))⟩⟩ := by
  have hch : isHash c = false := by
    cases hcase : isHash c with
    | false => rfl
    | true =>
      exfalso
      have hc' : c = '#' := of_decide_eq_true hcase
      rw [hc'] at h4
      exact absurd h4 (by decide)
  have htw : rest.takeWhile isHash = [] := takeWhile_hash_nil_of_head rest c h3 hch
  unfold parseHeadingLine
  rw [hashCount_run n rest htw, dropWhile_hash_run n rest htw]
  have hn0 : ¬(n = 0) := by omega
  have hn6 : ¬(6 < n) := by omega
  simp [hn0, hn6, h3, h4]

theorem parseHeadingLine_too_many (l : List Char) (h : 7 ≤ hashCount l) :
    parseHeadingLine l = none := by
  unfold parseHeadingLine
  have h0 : ¬(hashCount l = 0) := by omega
  have h6 : 6 < hashCount l := by omega
  simp only [h0, if_false, h6, if_true]

theorem parseHeadingLine_no_space (n : Nat) (rest : List Char) (c : Char)
    (h2 : rest.head? = some c) (h3 : isHash c = false) (h4 : isJsSpace c = false) :
    parseHeadingLine (List.replicate n '#' ++ rest) = none := by
  have htw : rest.takeWhile isHash = [] := takeWhile_hash_nil_of_head rest c h2 h3
  have hcount : hashCount (List.replicate n '#' ++ rest) = n :=
    hashCount_run n rest htw
  rcases Nat.lt_or_ge n 7 with hlt | hge
  · unfold parseHeadingLine
    rw [hcount, dropWhile_hash_run n rest htw]
    by_cases hn0 : n = 0
    · simp only [hn0, if_true]
    · have hn6 : ¬(6 < n) := by omega
      simp [hn0, hn6, h2, h4]
  · exact parseHeadingLine_too_many _ (by omega)

theorem parseHeadingLine_only_hashes (n : Nat) :
    parseHeadingLine (List.replicate n '#') = none := by
  have htw : ([] : List Char).takeWhile isHash = [] := rfl
  have hcount : hashCount (List.replicate n '#' ++ []) = n :=
    hashCount_run n [] htw
  rcases Nat.lt_or_ge n 7 with hlt | hge
  · have : parseHeadingLine (List.replicate n '#' ++ []) = none := by
      unfold parseHeadingLine
      rw [hcount, dropWhile_hash_run n [] htw]
      by_cases hn0 : n = 0
      · simp only [hn0, if_true]
      · have hn6 : ¬(6 < n) := by omega
        simp only [hn0, if_false, hn6, List.head?_nil]
    simpa using this
  · have : parseHeadingLine (List.replicate n '#' ++ []) = none :=
      parseHeadingLine_too_many _ (by omega)
    simpa using this

/-- C4 counterexample: for the single-line source that contains an interior
carriage return, the regex `.` stops the capture at the CR, so the stored
title is the capture `"a"` and not the trimmed remainder `"a\rb"` of the
line after the hashes. -/
theorem heading_title_cr_counterexample :
    extract "## a\rb" = [⟨2, "a", "a"⟩] ∧
    jsTrimS " a\rb" = "a\rb" ∧
    ("a" : String) ≠ "a\rb" :=
  ⟨by decide, by decide, by decide⟩

theorem takeWhile_all (p : Char → Bool) (l : List Char) (h : ∀ d ∈ l, p d = true) :
    l.takeWhile p = l := by
  induction l with
  | nil => rfl
  | cons a as ih =>
    rw [List.takeWhile_cons, if_pos (h a (List.mem_cons_self a as))]
    rw [ih (fun d hd => h d (List.mem_cons_of_mem a hd))]

theorem dropWhile_idem (p : Char → Bool) (l : List Char) :
    (l.dropWhile p).dropWhile p = l.dropWhile p := by
  induction l with
  | nil => rfl
  | cons a as ih =>
    rw [List.dropWhile_cons]
    by_cases h : p a = true
    · rw [if_pos h]
      exact ih
    · rw [if_neg h, List.dropWhile_cons, if_neg h]

theorem jsTrim_dropWhile (l : List Char) :
    jsTrim (l.dropWhile isJsSpace) = jsTrim l := by
  unfold jsTrim
  rw [dropWhile_idem]

theorem parseHeadingLine_match_noTerm (n : Nat) (rest : List Char) (c : Char)
    (h1 : 1 ≤ n) (h2 : n ≤ 6) (h3 : rest.head? = some c) (h4 : isJsSpace c = true)
    (h5 : ∀ d ∈ rest, notTerm d = true) :
    parseHeadingLine (List.replicate n '#' ++ rest) =
      some ⟨n, ⟨jsTrim rest⟩, ⟨slugCharsToc (jsTrim rest)⟩⟩ := by
  rw [parseHeadingLine_match n rest c h1 h2 h3 h4]
  have hmem : ∀ d ∈ rest.dropWhile isJsSpace, notTerm d = true := by
    intro d hd
    exact h5 d ((List.dropWhile_sublist _).subset hd)
  rw [takeWhile_all notTerm _ hmem, jsTrim_dropWhile]

/-- C4 (amended): a line beginning with 1-6 `'#'` followed by a whitespace
character yields exactly one record whose level is the hash count and whose
title is the trimmed maximal run of non-line-terminator characters that
follows the whitespace run after the hashes; for a line containing no
line-terminator character (CR, LS, PS — LF cannot occur after the split) the
title equals the trimmed remainder of the line after the hashes; a line with
7 or more leading `'#'`, with no whitespace after the hashes, or consisting
of hashes alone yields no record; and the spec §8 example extracts as
stated. -/
theorem heading_extraction_correct :
    (∀ (n : Nat) (rest : List Char) (c : Char),
        1 ≤ n → n ≤ 6 → rest.head? = some c → isJsSpace c = true →
        parseHeadingLine (List.replicate n '#' ++ rest) =
          some ⟨n, ⟨jsTrim ((rest.dropWhile isJsSpace).takeWhile notTerm)⟩,
                 ⟨slugCharsToc (jsTrim ((rest.dropWhile isJsSpace).takeWhile notTerm))⟩⟩) ∧
    (∀ (n : Nat) (rest : List Char) (c : Char),
        1 ≤ n → n ≤ 6 → rest.head? = some c → isJsSpace c = true →
        (∀ d ∈ rest, notTerm d = true) →
        parseHeadingLine (List.replicate n '#' ++ rest) =
          some ⟨n, ⟨jsTrim rest⟩, ⟨slugCharsToc (jsTrim rest)⟩⟩) ∧
    (∀ l : List Char, 7 ≤ hashCount l → parseHeadingLine l = none) ∧
    (∀ (n : Nat) (rest : List Char) (c : Char),
        rest.head? = some c → isHash c = false → isJsSpace c = false →
        parseHeadingLine (List.replicate n '#' ++ rest) = none) ∧
    (∀ n : Nat, parseHeadingLine (List.replicate n '#') = none) ∧
    extract "## Section One\ntext\n### Sub" =
      [⟨2, "Section One", "section-one"⟩, ⟨3, "Sub", "sub"⟩] :=
  ⟨parseHeadingLine_match, parseHeadingLine_match_noTerm, parseHeadingLine_too_many,
   parseHeadingLine_no_space, parseHeadingLine_only_hashes, by decide⟩

theorem heading_extraction_correct_witness :
    parseHeadingLine (List.replicate 2 '#' ++ (' ' :: "Section One".data)) =
      some ⟨2, "Section One", "section-one"⟩ := by
  have h := heading_extraction_correct.1 2 (' ' :: "Section One".data) ' '
    (by decide) (by decide) rfl (by decide)
  exact h.trans (by decide)

/-- C6: each line is matched independently of every other line (no code-fence
state), so a heading line is extracted wherever it occurs, including between
code-fence lines as in the concrete fenced example. -/
theorem fenced_code_heading_extracted :
    (∀ (pre post : List (List Char)) (line : List Char) (r : HeadingRecord),
        parseHeadingLine line = some r →
        recordsOfLines (pre ++ line :: post) =
          recordsOfLines pre ++ r :: recordsOfLines post) ∧
    extract "```\n## Inside\n```" = [⟨2, "Inside", "inside"⟩] := by
  constructor
  · intro pre post line r h
    unfold recordsOfLines
    rw [List.filterMap_append]
    simp [List.filterMap_cons, h]
  · decide

theorem fenced_code_heading_extracted_witness :
    recordsOfLines (["```".data] ++ "## Inside".data :: ["```".data]) =
      recordsOfLines ["```".data] ++
        (⟨2, "Inside", "inside"⟩ : HeadingRecord) :: recordsOfLines ["```".data] :=
  fenced_code_heading_extracted.1 ["```".data] ["```".data] "## Inside".data
    ⟨2, "Inside", "inside"⟩ (by decide)

/-- In-order concatenation of one entry per record. -/
def concatEntries (rs : List HeadingRecord) : String :=
  rs.foldr (fun r acc => tocEntry r ++ acc) ""

theorem foldl_entries (rs : List HeadingRecord) :
    ∀ init : String,
      rs.foldl (fun acc it => acc ++ tocEntry it) init = init ++ concatEntries rs := by
  induction rs with
  | nil => intro init; simp [concatEntries]
  | cons r rs ih =>
    intro init
    rw [List.foldl_cons, ih (init ++ tocEntry r)]
    unfold concatEntries
    rw [List.foldr_cons, String.append_assoc]

theorem generateTOC_eq_of_nonempty (src : String) (h : extract src ≠ []) :
    generateTOC src = navOpen ++ concatEntries (extract src) ++ "</nav>" := by
  unfold generateTOC
  rw [if_neg h, foldl_entries]

theorem generateTOC_ne_empty (src : String) (h : extract src ≠ []) :
    generateTOC src ≠ "" := by
  rw [generateTOC_eq_of_nonempty src h]
  intro heq
  have hlen := congrArg String.length heq
  rw [String.length_append, String.length_append] at hlen
  have hnav : navOpen.length ≠ 0 := by
    set_option maxRecDepth 8192 in decide
  have hempty : ("" : String).length = 0 := rfl
  omega

/-- C5: for a non-empty heading list the TOC HTML is the `<nav>` header
followed by one entry per record, concatenated in sequence order, each entry
linking to `#slug` with the title interpolated verbatim and unescaped and
with indentation `(level - 1) * 20`; duplicate records yield duplicate
identical entries with no deduplication. -/
theorem toc_entries_in_order :
    (∀ src : String, extract src ≠ [] →
        generateTOC src = navOpen ++ concatEntries (extract src) ++ "</nav>") ∧
    (∀ r : HeadingRecord,
        tocEntry r = "<div style=\"margin-left: " ++ toString ((r.level - 1) * 20) ++
          "px;\"><a href=\"#" ++ r.slug ++ "\">" ++ r.title ++ "</a></div>") ∧
    extract "## A\n## A" = [⟨2, "A", "a"⟩, ⟨2, "A", "a"⟩] ∧
    generateTOC "## A\n## A" =
      navOpen ++ (tocEntry ⟨2, "A", "a"⟩ ++ (tocEntry ⟨2, "A", "a"⟩ ++ "</nav>")) :=
  ⟨generateTOC_eq_of_nonempty, fun _ => rfl, by decide,
   by set_option maxRecDepth 8192 in decide⟩

theorem toc_entries_in_order_witness :
    generateTOC "## A" = navOpen ++ concatEntries (extract "## A") ++ "</nav>" :=
  toc_entries_in_order.1 "## A" (by decide)

/-- C7: with no matching heading line `generateTOC` returns the empty string
and the composed output is the fallback notice followed by the body; with at
least one matching line the composed output is the (non-empty) TOC HTML
followed by the body, with no fallback notice. -/
theorem toc_fallback_composition (src body : String) :
    (extract src = [] →
        generateTOC src = "" ∧ composeDocument src body = fallbackNotice ++ body) ∧
    (extract src ≠ [] →
        generateTOC src ≠ "" ∧ composeDocument src body = generateTOC src ++ body) := by
  constructor
  · intro h
    have hg : generateTOC src = "" := by unfold generateTOC; rw [if_pos h]
    exact ⟨hg, by simp [composeDocument, hg]⟩
  · intro h
    have hne : generateTOC src ≠ "" := generateTOC_ne_empty src h
    exact ⟨hne, by simp [composeDocument, hne]⟩

theorem toc_fallback_composition_witness :
    composeDocument "plain text" "<p>B</p>" = fallbackNotice ++ "<p>B</p>" ∧
    composeDocument "## A" "<p>B</p>" = generateTOC "## A" ++ "<p>B</p>" :=
  ⟨((toc_fallback_composition "plain text" "<p>B</p>").1 (by decide)).2,
   ((toc_fallback_composition "## A" "<p>B</p>").2 (by decide)).2⟩

theorem collapseRuns_mem (p : Char → Bool) :
    ∀ (l : List Char) (flag : Bool) (c : Char), c ∈ collapseRuns p flag l →
      c = '-' ∨ (p c = false ∧ c ∈ l) := by
  intro l
  induction l with
  | nil => intro flag c hc; simp [collapseRuns] at hc
  | cons a as ih =>
    intro flag c hc
    by_cases hpa : p a = true
    · cases flag with
      | true =>
        simp only [collapseRuns, hpa, if_true] at hc
        rcases ih true c hc with h | ⟨h1, h2⟩
        · exact Or.inl h
        · exact Or.inr ⟨h1, List.mem_cons_of_mem a h2⟩
      | false =>
        simp only [collapseRuns, hpa, if_true] at hc
        rcases List.mem_cons.1 hc with h | h
        · exact Or.inl h
        · rcases ih true c h with h' | ⟨h1, h2⟩
          · exact Or.inl h'
          · exact Or.inr ⟨h1, List.mem_cons_of_mem a h2⟩
    · have hpa' : p a = false := Bool.not_eq_true _ ▸ hpa
      simp only [collapseRuns, hpa', Bool.false_eq_true, if_false] at hc
      rcases List.mem_cons.1 hc with h | h
      · exact Or.inr ⟨h ▸ hpa', h ▸ List.mem_cons_self a as⟩
      · rcases ih false c h with h' | ⟨h1, h2⟩
        · exact Or.inl h'
        · exact Or.inr ⟨h1, List.mem_cons_of_mem a h2⟩

theorem collapseRuns_head_inRun (p : Char → Bool) (hp : p '-' = true) :
    ∀ l : List Char, (collapseRuns p true l).head? ≠ some '-' := by
  intro l
  induction l with
  | nil => simp [collapseRuns]
  | cons a as ih =>
    by_cases hpa : p a = true
    · simp only [collapseRuns, hpa, if_true]
      exact ih
    · have hpa' : p a = false := Bool.not_eq_true _ ▸ hpa
      simp only [collapseRuns, hpa', Bool.false_eq_true, if_false, List.head?_cons]
      intro h
      have : a = '-' := by simpa using h
      rw [this] at hpa'
      rw [hp] at hpa'
      exact absurd hpa' (by decide)

theorem noDoubleHyphen_cons (a : Char) (l : List Char) :
    noDoubleHyphen (a :: l) = true ↔
      ((∀ b, l.head? = some b → ¬(a = '-' ∧ b = '-')) ∧ noDoubleHyphen l = true) := by
  cases l with
  | nil => simp [noDoubleHyphen]
  | cons b bs =>
    simp only [noDoubleHyphen, Bool.and_eq_true, Bool.not_eq_true',
      Bool.and_eq_false_iff, List.head?_cons]
    constructor
    · rintro ⟨h1, h2⟩
      refine ⟨?_, h2⟩
      rintro b' hb' ⟨ha, hb⟩
      have : b = b' := by simpa using hb'
      rcases h1 with h | h
      · exact absurd ha (by simpa using h)
      · rw [this] at h; exact absurd hb (by simpa using h)
    · rintro ⟨h1, h2⟩
      refine ⟨?_, h2⟩
      by_cases ha : a = '-'
      · right
        have := h1 b rfl
        have hb : ¬(b = '-') := fun hb => this ⟨ha, hb⟩
        simpa using hb
      · left; simpa using ha

theorem collapseRuns_noDH (p : Char → Bool) (hp : p '-' = true) :
    ∀ (l : List Char) (flag : Bool), noDoubleHyphen (collapseRuns p flag l) = true := by
  intro l
  induction l with
  | nil => intro flag; rfl
  | cons a as ih =>
    intro flag
    by_cases hpa : p a = true
    · cases flag with
      | true => simp only [collapseRuns, hpa, if_true]; exact ih true
      | false =>
        simp only [collapseRuns, hpa, if_true, Bool.false_eq_true, if_false]
        rw [noDoubleHyphen_cons]
        refine ⟨?_, ih true⟩
        intro b hb hcon
        exact collapseRuns_head_inRun p hp as (hb.trans (by rw [hcon.2]))
    · have hpa' : p a = false := Bool.not_eq_true _ ▸ hpa
      simp only [collapseRuns, hpa', Bool.false_eq_true, if_false]
      rw [noDoubleHyphen_cons]
      refine ⟨?_, ih false⟩
      rintro b hb ⟨ha, _⟩
      rw [ha] at hpa'
      rw [hp] at hpa'
      exact absurd hpa' (by decide)

theorem dropLead_nil : dropLead [] = [] := rfl

theorem dropLead_cons (a : Char) (rest : List Char) :
    dropLead (a :: rest) = if a = '-' then rest else a :: rest := rfl

theorem dropLead_mem (l : List Char) (c : Char) (hc : c ∈ dropLead l) : c ∈ l := by
  cases l with
  | nil => simp [dropLead] at hc
  | cons a rest =>
    rw [dropLead_cons] at hc
    by_cases ha : a = '-'
    · rw [if_pos ha] at hc
      exact List.mem_cons_of_mem a hc
    · rwa [if_neg ha] at hc

theorem dropLead_noDH (l : List Char) (h : noDoubleHyphen l = true) :
    noDoubleHyphen (dropLead l) = true := by
  cases l with
  | nil => exact h
  | cons a rest =>
    rw [dropLead_cons]
    by_cases ha : a = '-'
    · rw [if_pos ha]
      exact ((noDoubleHyphen_cons a rest).1 h).2
    · rwa [if_neg ha]

theorem dropLead_head (l : List Char) (h : noDoubleHyphen l = true) :
    (dropLead l).head? ≠ some '-' := by
  cases l with
  | nil => simp [dropLead]
  | cons a rest =>
    rw [dropLead_cons]
    by_cases ha : a = '-'
    · rw [if_pos ha]
      rcases (noDoubleHyphen_cons a rest).1 h with ⟨h1, _⟩
      cases rest with
      | nil => simp
      | cons b bs =>
        simp only [List.head?_cons]
        intro hcon
        have hb : b = '-' := by simpa using hcon
        exact h1 b rfl ⟨ha, hb⟩
    · rw [if_neg ha]
      simp only [List.head?_cons]
      intro hcon
      exact ha (by simpa using hcon)

theorem dropTrail_mem (l : List Char) : ∀ c : Char, c ∈ dropTrail l → c ∈ l := by
  induction l with
  | nil => intro c hc; simp [dropTrail] at hc
  | cons a rest ih =>
    intro c hc
    cases rest with
    | nil =>
      unfold dropTrail at hc
      by_cases ha : a = '-'
      · rw [if_pos ha] at hc; simp at hc
      · rw [if_neg ha] at hc; exact hc
    | cons b bs =>
      rw [show dropTrail (a :: b :: bs) = a :: dropTrail (b :: bs) from rfl] at hc
      rcases List.mem_cons.1 hc with h | h
      · exact h ▸ List.mem_cons_self a (b :: bs)
      · exact List.mem_cons_of_mem a (ih c h)

theorem dropTrail_head (l : List Char) :
    (dropTrail l).head? = l.head? ∨ dropTrail l = [] := by
  cases l with
  | nil => exact Or.inr rfl
  | cons a rest =>
    cases rest with
    | nil =>
      unfold dropTrail
      by_cases ha : a = '-'
      · rw [if_pos ha]; exact Or.inr rfl
      · rw [if_neg ha]; exact Or.inl rfl
    | cons b bs => exact Or.inl rfl

theorem dropTrail_nil_iff (l : List Char) :
    dropTrail l = [] ↔ l = [] ∨ l = ['-'] := by
  cases l with
  | nil => simp [dropTrail]
  | cons a rest =>
    cases rest with
    | nil =>
      unfold dropTrail
      by_cases ha : a = '-'
      · rw [if_pos ha]; simp [ha]
      · rw [if_neg ha]; simp [ha]
    | cons b bs =>
      rw [show dropTrail (a :: b :: bs) = a :: dropTrail (b :: bs) from rfl]
      simp

theorem dropTrail_noDH (l : List Char) (h : noDoubleHyphen l = true) :
    noDoubleHyphen (dropTrail l) = true := by
  induction l with
  | nil => exact h
  | cons a rest ih =>
    cases rest with
    | nil =>
      unfold dropTrail
      by_cases ha : a = '-'
      · rw [if_pos ha]; rfl
      · rw [if_neg ha]; rfl
    | cons b bs =>
      rw [show dropTrail (a :: b :: bs) = a :: dropTrail (b :: bs) from rfl]
      rcases (noDoubleHyphen_cons a (b :: bs)).1 h with ⟨h1, h2⟩
      rw [noDoubleHyphen_cons]
      refine ⟨?_, ih h2⟩
      intro x hx hcon
      rcases dropTrail_head (b :: bs) with hh | hh
      · rw [hh] at hx
        exact h1 x hx hcon
      · rw [hh] at hx
        simp at hx

theorem dropTrail_last (l : List Char) (h : noDoubleHyphen l = true) :
    lastChar (dropTrail l) ≠ some '-' := by
  induction l with
  | nil => simp [dropTrail, lastChar]
  | cons a rest ih =>
    cases rest with
    | nil =>
      unfold dropTrail
      by_cases ha : a = '-'
      · rw [if_pos ha]; simp [lastChar]
      · rw [if_neg ha]
        simp only [lastChar]
        intro hcon
        exact ha (by simpa using hcon)
    | cons b bs =>
      rw [show dropTrail (a :: b :: bs) = a :: dropTrail (b :: bs) from rfl]
      rcases (noDoubleHyphen_cons a (b :: bs)).1 h with ⟨h1, h2⟩
      cases hdt : dropTrail (b :: bs) with
      | nil =>
        rcases (dropTrail_nil_iff (b :: bs)).1 hdt with hcon | hone
        · exact absurd hcon (by simp)
        · have hb' : b = '-' ∧ bs = [] := by simpa using hone
          have hb : b = '-' := hb'.1
          simp only [lastChar]
          intro hcon
          have ha : a = '-' := by simpa using hcon
          exact h1 b rfl ⟨ha, hb⟩
      | cons x xs =>
        rw [show lastChar (a :: x :: xs) = lastChar (x :: xs) from rfl]
        rw [← hdt]
        exact ih h2

/-- C9: every slug consists only of characters from `[a-z0-9_-]`, never has
two adjacent hyphens, and neither starts nor ends with a hyphen; the TOC pass
computes the identical slug, so every emitted heading id and TOC href
fragment is URL-fragment-safe. -/
theorem slug_url_fragment_safe (s : String) :
    (rendererSlug s).data.all allowedChar = true ∧
    noDoubleHyphen (rendererSlug s).data = true ∧
    (rendererSlug s).data.head? ≠ some '-' ∧
    lastChar (rendererSlug s).data ≠ some '-' ∧
    tocSlug s = rendererSlug s := by
  have hp : (fun c => !(jsIsWord c)) '-' = true := by decide
  have hdata : (rendererSlug s).data =
      dropTrail (dropLead (collapseRuns (fun c => !(jsIsWord c)) false
        (s.data.map jsToLower))) := rfl
  set m := collapseRuns (fun c => !(jsIsWord c)) false (s.data.map jsToLower) with hm
  have hnoDH : noDoubleHyphen m = true := by
    rw [hm]; exact collapseRuns_noDH _ hp _ false
  refine ⟨?_, ?_, ?_, ?_, rfl⟩
  · rw [List.all_eq_true]
    intro c hc
    rw [hdata] at hc
    have hc2 : c ∈ m := dropLead_mem _ c (dropTrail_mem _ c hc)
    rw [hm] at hc2
    rcases collapseRuns_mem _ _ _ c hc2 with h | ⟨h1, h2⟩
    · subst h; decide
    · rcases List.mem_map.1 h2 with ⟨d, _, rfl⟩
      have hw : jsIsWord (jsToLower d) = true := by simpa using h1
      rw [jsIsWord_lowered] at hw
      unfold specKeepChar at hw
      unfold allowedChar
      simp only [Bool.or_eq_true] at hw ⊢
      tauto
  · rw [hdata]
    exact dropTrail_noDH _ (dropLead_noDH _ hnoDH)
  · rw [hdata]
    rcases dropTrail_head (dropLead m) with hh | hh
    · rw [hh]
      exact dropLead_head _ hnoDH
    · rw [hh]
      simp
  · rw [hdata]
    exact dropTrail_last _ (dropLead_noDH _ hnoDH)

/-- C10: a line of 1-6 `'#'` followed only by whitespace still matches the
heading regex with an empty capture, producing a record with empty title and
empty slug, whose TOC entry has empty visible text and the bare `#` as its
hyperlink target. -/
theorem empty_title_heading (n : Nat) (ws : List Char) (c : Char)
    (h1 : 1 ≤ n) (h2 : n ≤ 6) (h3 : ws.head? = some c)
    (h4 : ∀ d ∈ ws, isJsSpace d = true) :
    parseHeadingLine (List.replicate n '#' ++ ws) = some ⟨n, "", ""⟩ ∧
    tocEntry ⟨n, "", ""⟩ =
      "<div style=\"margin-left: " ++ toString ((n - 1) * 20) ++
        "px;\"><a href=\"#\"></a></div>" := by
  constructor
  · have hcm : c ∈ ws := by
      cases ws with
      | nil => simp at h3
      | cons a as =>
        have ha : a = c := by simpa using h3
        exact ha ▸ List.mem_cons_self a as
    have hc : isJsSpace c = true := h4 c hcm
    rw [parseHeadingLine_match n ws c h1 h2 h3 hc]
    have hdrop : ws.dropWhile isJsSpace = [] := List.dropWhile_eq_nil_iff.2 h4
    rw [hdrop]
    rfl
  · apply String.ext
    have hnil : ("" : String).data = [] := rfl
    simp only [tocEntry, String.data_append, hnil, List.append_nil, List.nil_append,
      List.append_assoc]
    rw [List.append_right_inj, List.append_right_inj]
    decide

theorem empty_title_heading_witness :
    parseHeadingLine (List.replicate 2 '#' ++ [' ']) = some ⟨2, "", ""⟩ ∧
    tocEntry ⟨2, "", ""⟩ =
      "<div style=\"margin-left: " ++ toString ((2 - 1) * 20) ++
        "px;\"><a href=\"#\"></a></div>" :=
  empty_title_heading 2 [' '] ' ' (by decide) (by decide) rfl (by decide)
